import Mathlib

/-!
Verification of the VizLearn knowledge-graph application.

The development shallowly embeds the client-side graph bookkeeping
(`src/App.tsx`, given here as `src/unnamed/part_004`), the Express request
handlers of `server/server.js`, and the pure part of the 3D renderer
(`src/components/GraphCanvas3D.tsx`).  External effects (the Gemini LLM call,
`JSON.parse`, the embedding model, Neo4j, `Math.random`) are passed in as
explicit oracle parameters, so every definition is executable.
-/

namespace VizLearn

/-- Planar position carried by a node (`position: {x, y}` on the wire).  The
JavaScript values are IEEE doubles; coordinates play no arithmetic role in any
verified property, so they are embedded as integers. -/
structure Pos where
  x : Int
  y : Int
deriving DecidableEq, Repr

/-- Payload `data: { label: string }` of a node. -/
structure NodeData where
  label : String
deriving DecidableEq, Repr

/-- Wire-format node: `{ id, data: { label }, position: { x, y } }`. -/
structure Node where
  id : String
  data : NodeData
  position : Pos
deriving DecidableEq, Repr

/-- Payload `data: { label: string }` of an edge. -/
structure EdgeData where
  label : String
deriving DecidableEq, Repr

/-- Wire-format edge: `{ id, source, target, data: { label } }`. -/
structure Edge where
  id : String
  source : String
  target : String
  data : EdgeData
deriving DecidableEq, Repr

/-- A node/edge list pair: the working graph held in the React state, and also
the fragment shape returned by generation. -/
structure Graph where
  nodes : List Node
  edges : List Edge
deriving DecidableEq, Repr

/-- The merge step of `handleExpandNode` (App.tsx lines 79-95): copy the
existing arrays, build the id sets of the existing nodes and edges once, then
push each new node/edge whose id is not in the corresponding set.  The sets are
not updated while pushing, exactly as in the source. -/
def mergeGraph (existing : Graph) (addition : Graph) : Graph :=
  let existingNodeIds := existing.nodes.map (fun n => n.id)
  let existingEdgeIds := existing.edges.map (fun e => e.id)
  { nodes := existing.nodes ++
      addition.nodes.filter (fun n => !(existingNodeIds.contains n.id))
            , edges := existing.edges ++
      addition.edges.filter (fun e => !(existingEdgeIds.contains e.id)) }

/-- `handleDeleteNode` (App.tsx lines 112-116): drop the node with the given id
and every edge whose source or target is that id. -/
def handleDeleteNode (nodeId : String) (g : Graph) : Graph :=
  { nodes := g.nodes.filter (fun n => n.id != nodeId)
            , edges := g.edges.filter (fun e => e.source != nodeId && e.target != nodeId) }

theorem contains_map_id_iff (l : List Node) (s : String) :
    (l.map (fun n => n.id)).contains s = true ↔ ∃ n ∈ l, n.id = s := by
  simp [List.contains_iff_exists_mem_beq, List.mem_map]

theorem contains_map_edgeId_iff (l : List Edge) (s : String) :
    (l.map (fun e => e.id)).contains s = true ↔ ∃ e ∈ l, e.id = s := by
  simp [List.contains_iff_exists_mem_beq, List.mem_map]

theorem mem_mergeGraph_nodes (G F : Graph) (n : Node) :
    n ∈ (mergeGraph G F).nodes ↔
      n ∈ G.nodes ∨ (n ∈ F.nodes ∧ ∀ g ∈ G.nodes, g.id ≠ n.id) := by
  simp only [mergeGraph, List.mem_append, List.mem_filter, Bool.not_eq_true',
    ← Bool.not_eq_true]
  constructor
  · rintro (h | ⟨hF, hc⟩)
    · exact Or.inl h
    · refine Or.inr ⟨hF, fun g hg hid => hc ?_⟩
      exact (contains_map_id_iff G.nodes n.id).mpr ⟨g, hg, hid⟩
  · rintro (h | ⟨hF, hall⟩)
    · exact Or.inl h
    · refine Or.inr ⟨hF, fun hc => ?_⟩
      obtain ⟨g, hg, hid⟩ := (contains_map_id_iff G.nodes n.id).mp hc
      exact hall g hg hid

theorem mem_mergeGraph_edges (G F : Graph) (e : Edge) :
    e ∈ (mergeGraph G F).edges ↔
      e ∈ G.edges ∨ (e ∈ F.edges ∧ ∀ g ∈ G.edges, g.id ≠ e.id) := by
  simp only [mergeGraph, List.mem_append, List.mem_filter, Bool.not_eq_true',
    ← Bool.not_eq_true]
  constructor
  · rintro (h | ⟨hF, hc⟩)
    · exact Or.inl h
    · refine Or.inr ⟨hF, fun g hg hid => hc ?_⟩
      exact (contains_map_edgeId_iff G.edges e.id).mpr ⟨g, hg, hid⟩
  · rintro (h | ⟨hF, hall⟩)
    · exact Or.inl h
    · refine Or.inr ⟨hF, fun hc => ?_⟩
      obtain ⟨g, hg, hid⟩ := (contains_map_edgeId_iff G.edges e.id).mp hc
      exact hall g hg hid

theorem mergeGraph_nodes_take (G F : Graph) :
    (mergeGraph G F).nodes.take G.nodes.length = G.nodes := by
  simp [mergeGraph, List.take_left]

theorem mergeGraph_edges_take (G F : Graph) :
    (mergeGraph G F).edges.take G.edges.length = G.edges := by
  simp [mergeGraph, List.take_left]

/-- C1: merge is first-write-wins deduplication by identifier.  A node is in
the merged graph iff it was already in `existing` or it is a fragment node
whose id clashes with no existing node; likewise for edges; and the existing
nodes are kept verbatim (as the unchanged prefix), so no relabeling happens. -/
theorem merge_first_write_wins (G F : Graph) :
    (∀ n, n ∈ (mergeGraph G F).nodes ↔
        n ∈ G.nodes ∨ (n ∈ F.nodes ∧ ∀ g ∈ G.nodes, g.id ≠ n.id)) ∧
    (∀ e, e ∈ (mergeGraph G F).edges ↔
        e ∈ G.edges ∨ (e ∈ F.edges ∧ ∀ g ∈ G.edges, g.id ≠ e.id)) ∧
    (mergeGraph G F).nodes.take G.nodes.length = G.nodes ∧
    (mergeGraph G F).edges.take G.edges.length = G.edges :=
  ⟨mem_mergeGraph_nodes G F, mem_mergeGraph_edges G F,
    mergeGraph_nodes_take G F, mergeGraph_edges_take G F⟩

/-- C2: deleting a node removes exactly the nodes with that id and exactly the
edges touching that id, leaving everything else in place. -/
theorem deleteNode_exact (d : String) (g : Graph) :
    (∀ n, n ∈ (handleDeleteNode d g).nodes ↔ n ∈ g.nodes ∧ n.id ≠ d) ∧
    (∀ e, e ∈ (handleDeleteNode d g).edges ↔
        e ∈ g.edges ∧ e.source ≠ d ∧ e.target ≠ d) := by
  constructor
  · intro n
    simp [handleDeleteNode, List.mem_filter]
  · intro e
    simp [handleDeleteNode, List.mem_filter]

/-- C5: merge is monotone — every existing node and edge survives (in fact as
the unchanged prefix of the result), so the counts can only grow. -/
theorem merge_monotone (G F : Graph) :
    (∀ n ∈ G.nodes, n ∈ (mergeGraph G F).nodes) ∧
    (∀ e ∈ G.edges, e ∈ (mergeGraph G F).edges) ∧
    G.nodes.length ≤ (mergeGraph G F).nodes.length ∧
    G.edges.length ≤ (mergeGraph G F).edges.length ∧
    (mergeGraph G F).nodes.take G.nodes.length = G.nodes ∧
    (mergeGraph G F).edges.take G.edges.length = G.edges := by
  refine ⟨?_, ?_, ?_, ?_, mergeGraph_nodes_take G F, mergeGraph_edges_take G F⟩
  · intro n hn
    exact List.mem_append_left _ hn
  · intro e he
    exact List.mem_append_left _ he
  · simp [mergeGraph]
  · simp [mergeGraph]

theorem mergeGraph_reapply_eq (G F : Graph) :
    mergeGraph (mergeGraph G F) F = mergeGraph G F := by
  have hn : ∀ f ∈ F.nodes,
      ((mergeGraph G F).nodes.map (fun n => n.id)).contains f.id = true := by
    intro f hf
    rw [contains_map_id_iff]
    by_cases h : ∃ g ∈ G.nodes, g.id = f.id
    · obtain ⟨g, hg, hid⟩ := h
      exact ⟨g, (mem_mergeGraph_nodes G F g).mpr (Or.inl hg), hid⟩
    · refine ⟨f, (mem_mergeGraph_nodes G F f).mpr (Or.inr ⟨hf, ?_⟩), rfl⟩
      intro g hg hgid
      exact h ⟨g, hg, hgid⟩
  have he : ∀ f ∈ F.edges,
      ((mergeGraph G F).edges.map (fun e => e.id)).contains f.id = true := by
    intro f hf
    rw [contains_map_edgeId_iff]
    by_cases h : ∃ g ∈ G.edges, g.id = f.id
    · obtain ⟨g, hg, hid⟩ := h
      exact ⟨g, (mem_mergeGraph_edges G F g).mpr (Or.inl hg), hid⟩
    · refine ⟨f, (mem_mergeGraph_edges G F f).mpr (Or.inr ⟨hf, ?_⟩), rfl⟩
      intro g hg hgid
      exact h ⟨g, hg, hgid⟩
  have hfn : F.nodes.filter
      (fun n => !(((mergeGraph G F).nodes.map (fun n => n.id)).contains n.id)) = [] := by
    rw [List.filter_eq_nil_iff]
    intro a ha
    rw [hn a ha]
    decide
  have hfe : F.edges.filter
      (fun e => !(((mergeGraph G F).edges.map (fun e => e.id)).contains e.id)) = [] := by
    rw [List.filter_eq_nil_iff]
    intro a ha
    rw [he a ha]
    decide
  have hstep : mergeGraph (mergeGraph G F) F =
      { nodes := (mergeGraph G F).nodes ++ F.nodes.filter
          (fun n => !(((mergeGraph G F).nodes.map (fun n => n.id)).contains n.id))
            , edges := (mergeGraph G F).edges ++ F.edges.filter
          (fun e => !(((mergeGraph G F).edges.map (fun e => e.id)).contains e.id)) } := rfl
  rw [hstep, hfn, hfe]
  simp

theorem mergeGraph_nodes_nodup (G F : Graph)
    (hG : (G.nodes.map (fun n => n.id)).Nodup)
    (hF : (F.nodes.map (fun n => n.id)).Nodup) :
    ((mergeGraph G F).nodes.map (fun n => n.id)).Nodup := by
  have hsplit : (mergeGraph G F).nodes.map (fun n => n.id) =
      G.nodes.map (fun n => n.id) ++
        (F.nodes.filter
          (fun n => !((G.nodes.map (fun n => n.id)).contains n.id))).map
          (fun n => n.id) := by
    simp [mergeGraph]
  rw [hsplit, List.nodup_append]
  refine ⟨hG, ?_, ?_⟩
  · exact hF.sublist ((List.filter_sublist F.nodes).map (fun n => n.id))
  · intro a haG haF
    obtain ⟨n, hn, rfl⟩ := List.mem_map.mp haF
    have hc := (List.mem_filter.mp hn).2
    have ht : (G.nodes.map (fun n => n.id)).contains n.id = true := by
      rw [contains_map_id_iff]
      obtain ⟨g, hg, hgid⟩ := List.mem_map.mp haG
      exact ⟨g, hg, hgid⟩
    rw [ht] at hc
    simp at hc

theorem mergeGraph_edges_nodup (G F : Graph)
    (hG : (G.edges.map (fun e => e.id)).Nodup)
    (hF : (F.edges.map (fun e => e.id)).Nodup) :
    ((mergeGraph G F).edges.map (fun e => e.id)).Nodup := by
  have hsplit : (mergeGraph G F).edges.map (fun e => e.id) =
      G.edges.map (fun e => e.id) ++
        (F.edges.filter
          (fun e => !((G.edges.map (fun e => e.id)).contains e.id))).map
          (fun e => e.id) := by
    simp [mergeGraph]
  rw [hsplit, List.nodup_append]
  refine ⟨hG, ?_, ?_⟩
  · exact hF.sublist ((List.filter_sublist F.edges).map (fun e => e.id))
  · intro a haG haF
    obtain ⟨n, hn, rfl⟩ := List.mem_map.mp haF
    have hc := (List.mem_filter.mp hn).2
    have ht : (G.edges.map (fun e => e.id)).contains n.id = true := by
      rw [contains_map_edgeId_iff]
      obtain ⟨g, hg, hgid⟩ := List.mem_map.mp haG
      exact ⟨g, hg, hgid⟩
    rw [ht] at hc
    simp at hc

/-- The empty working graph (initial React state). -/
def emptyGraph : Graph := ⟨[], []⟩

/-- A fragment containing two distinct nodes that share the id `"a"`. -/
def dupIdFragment : Graph :=
  ⟨[⟨"a", ⟨"x"⟩, ⟨0, 0⟩⟩, ⟨"a", ⟨"y"⟩, ⟨0, 0⟩⟩], []⟩

/-- C4 counterexample: merging a fragment that repeats an id within itself
into the empty graph yields a result with two nodes of the same id, because
the dedup set of `handleExpandNode` is built once and not updated while
pushing.  This refutes the claim's "the result never contains two nodes or two
edges with the same id". -/
theorem merge_dup_id_counterexample :
    (mergeGraph emptyGraph dupIdFragment).nodes.map (fun n => n.id) = ["a", "a"] ∧
    ¬ ((mergeGraph emptyGraph dupIdFragment).nodes.map (fun n => n.id)).Nodup := by
  constructor
  · rfl
  · decide

/-- C4 (amended): re-merging the same fragment is always a no-op, and the
merged graph has no duplicate node or edge ids provided the existing graph and
the fragment are each internally duplicate-free. -/
theorem merge_idempotent_amended (G F : Graph) :
    mergeGraph (mergeGraph G F) F = mergeGraph G F ∧
    ((G.nodes.map (fun n => n.id)).Nodup → (F.nodes.map (fun n => n.id)).Nodup →
      ((mergeGraph G F).nodes.map (fun n => n.id)).Nodup) ∧
    ((G.edges.map (fun e => e.id)).Nodup → (F.edges.map (fun e => e.id)).Nodup →
      ((mergeGraph G F).edges.map (fun e => e.id)).Nodup) :=
  ⟨mergeGraph_reapply_eq G F, mergeGraph_nodes_nodup G F, mergeGraph_edges_nodup G F⟩

/-- Witness for C4's amended theorem at a concrete graph and fragment. -/
theorem merge_idempotent_amended_witness :
    ((mergeGraph ⟨[⟨"1", ⟨"Photosynthesis"⟩, ⟨0, 0⟩⟩], []⟩
        ⟨[⟨"2", ⟨"Light"⟩, ⟨1, 1⟩⟩], [⟨"e1", "1", "2", ⟨"uses"⟩⟩]⟩).nodes.map
      (fun n => n.id)).Nodup :=
  (merge_idempotent_amended ⟨[⟨"1", ⟨"Photosynthesis"⟩, ⟨0, 0⟩⟩], []⟩
      ⟨[⟨"2", ⟨"Light"⟩, ⟨1, 1⟩⟩], [⟨"e1", "1", "2", ⟨"uses"⟩⟩]⟩).2.1
    (by decide) (by decide)

/-- Structured stand-in for the prompt strings the handlers build.  The real
prompts interpolate the topic or `JSON.stringify` of the graph into long
template literals; no verified property depends on that text, so a prompt is
embedded as the data it is built from. -/
inductive Prompt where
  | generateTopic (topic : String)
  | expandNode (fullGraph : Graph) (selectedNode : Node)
deriving DecidableEq, Repr

/-- Model of `generateGraph` (server.js lines 55-66): call the model, read its
text, `JSON.parse` it; any exception inside that `try` block is caught and
rethrown as an error carrying the fixed message.  `llmText` stands for the
Gemini call (`.error` = the call threw), `jsonParse` stands for `JSON.parse`
(`none` = parse exception). -/
def generateGraph (llmText : Prompt → Except Unit String)
    (jsonParse : String → Option Graph) (prompt : Prompt) : Except String Graph :=
  match llmText prompt with
  | .error _ => .error "Failed to generate graph from API."
  | .ok text =>
    match jsonParse text with
    | some g => .ok g
    | none => .error "Failed to generate graph from API."

/-- Model of `getEmbedding` (server.js lines 68-78): embed the text, and on
any failure return the empty array instead of throwing.  Embedding components
are floats in JavaScript; no verified property computes with them, so they are
embedded as integers. -/
def getEmbedding (embed : String → Except String (List Int)) (text : String) :
    List Int :=
  match embed text with
  | .ok v => v
  | .error _ => []

/-- A stored `:Concept` node: properties `id`, `label`, `embedding`. -/
structure DbNode where
  id : String
  label : String
  embedding : List Int
deriving DecidableEq, Repr

/-- A stored `RELATES_TO` relationship.  `startId`/`endId` are the graph
endpoints the relationship is attached to; `sourceProp`/`targetProp` are
optional `source`/`target` properties on the relationship itself, which this
codebase never writes but the load path reads. -/
structure DbRel where
  startId : String
  endId : String
  id : String
  label : String
  sourceProp : Option String
  targetProp : Option String
deriving DecidableEq, Repr

/-- The Neo4j store, reduced to the parts this code touches. -/
structure Db where
  nodes : List DbNode
  rels : List DbRel
deriving DecidableEq, Repr

/-- The node upsert of `saveGraphToNeo4j`: Cypher `MERGE` on a `:Concept`
keyed by `id`, with `ON CREATE` and `ON MATCH` both setting `label` and
`embedding`. -/
def upsertConcept (db : Db) (id label : String) (embedding : List Int) : Db :=
  if db.nodes.any (fun n => n.id == id) then
    { db with nodes := db.nodes.map (fun n =>
        if n.id == id then { n with label := label, embedding := embedding } else n) }
  else
    { db with nodes := db.nodes ++ [⟨id, label, embedding⟩] }

/-- The edge upsert of `saveGraphToNeo4j`: `MATCH` both endpoint concepts,
then `MERGE` a `RELATES_TO` relationship keyed by edge id and label.  If
either `MATCH` finds no node the statement matches no row and writes nothing.
Only `id` and `label` are stored on the relationship — never a `source` or
`target` property.  Lookups are modelled as id-keyed, matching the id-unique
stores the node upsert maintains. -/
def mergeRelation (db : Db) (sourceId targetId edgeId label : String) : Db :=
  if db.nodes.any (fun n => n.id == sourceId) &&
      db.nodes.any (fun n => n.id == targetId) then
    if db.rels.any (fun r =>
        r.startId == sourceId && r.endId == targetId &&
          r.id == edgeId && r.label == label) then
      db
    else
      { db with rels := db.rels ++ [⟨sourceId, targetId, edgeId, label, none, none⟩] }
  else db

/-- First loop of `saveGraphToNeo4j` (server.js lines 83-91): embed and upsert
every node in order. -/
def saveNodesPhase (embed : String → Except String (List Int))
    (nodes : List Node) (db : Db) : Db :=
  nodes.foldl
    (fun d node =>
      upsertConcept d node.id node.data.label (getEmbedding embed node.data.label))
    db

/-- Second loop of `saveGraphToNeo4j` (server.js lines 93-100): upsert every
edge in order. -/
def saveEdgesPhase (edges : List Edge) (db : Db) : Db :=
  edges.foldl
    (fun d edge => mergeRelation d edge.source edge.target edge.id edge.data.label)
    db

/-- Model of `saveGraphToNeo4j` (server.js lines 80-107): the node loop, then
the edge loop.  A database error would be caught and only logged, and
embedding failures were already degraded by `getEmbedding`, so the function
never propagates a failure to its caller. -/
def saveGraphToNeo4j (embed : String → Except String (List Int))
    (nodes : List Node) (edges : List Edge) (db : Db) : Db :=
  saveEdgesPhase edges (saveNodesPhase embed nodes db)

/-- Body of an HTTP JSON response. -/
inductive ApiBody where
  | errorMsg (msg : String)
  | graphBody (g : Graph)
deriving DecidableEq, Repr

/-- An HTTP response: status code and JSON body. -/
structure HttpResponse where
  status : Nat
  body : ApiBody
deriving DecidableEq, Repr

/-- Observable steps of a request handler, listed in execution order.  An
`await`ed promise settles before every later event of the same handler. -/
inductive Event where
  | llmCall (prompt : Prompt)
  | persistComplete (nodes : List Node) (edges : List Edge)
  | responded (status : Nat)
deriving DecidableEq, Repr

/-- JavaScript truthiness of an optional string request field: an absent field
and the empty string are both falsy. -/
def strPresent : Option String → Bool
  | none => false
  | some s => !(s == "")

/-- Model of `POST /api/generate` (server.js lines 109-142): `!topic` rejects
a missing or empty topic with 400; otherwise `generateGraph` runs, the
fragment is saved — the save is `await`ed — and then sent with 200; a
generation error is answered with 500 carrying `error.message`. -/
def generateHandler (llmText : Prompt → Except Unit String)
    (jsonParse : String → Option Graph) (embed : String → Except String (List Int))
    (db : Db) (topic : Option String) : HttpResponse × Db × List Event :=
  if !(strPresent topic) then
    (⟨400, .errorMsg "Topic is required"⟩, db, [])
  else
    let prompt := Prompt.generateTopic (topic.getD "")
    match generateGraph llmText jsonParse prompt with
    | .error msg => (⟨500, .errorMsg msg⟩, db, [.llmCall prompt, .responded 500])
    | .ok graphData =>
      let db' := saveGraphToNeo4j embed graphData.nodes graphData.edges db
      (⟨200, .graphBody graphData⟩, db',
        [.llmCall prompt, .persistComplete graphData.nodes graphData.edges,
          .responded 200])

/-- Model of `POST /api/expand` (server.js lines 144-193): the guard
`!fullGraph || !selectedNodeId` answers 400 (an object is always truthy, an
empty-string id is falsy); then `fullGraph.nodes.find` looks the node up, and
absence answers 404 before any LLM work; otherwise the expansion runs, the
fragment is saved — the save is `await`ed — and sent with 200. -/
def expandHandler (llmText : Prompt → Except Unit String)
    (jsonParse : String → Option Graph) (embed : String → Except String (List Int))
    (db : Db) (fullGraph : Option Graph) (selectedNodeId : Option String) :
    HttpResponse × Db × List Event :=
  match fullGraph, selectedNodeId with
  | some g, some nid =>
    if nid == "" then
      (⟨400, .errorMsg "Full graph and selected node ID are required"⟩, db, [])
    else
      match g.nodes.find? (fun n => n.id == nid) with
      | none => (⟨404, .errorMsg "Selected node not found in the graph"⟩, db, [])
      | some selectedNode =>
        let prompt := Prompt.expandNode g selectedNode
        match generateGraph llmText jsonParse prompt with
        | .error msg => (⟨500, .errorMsg msg⟩, db, [.llmCall prompt, .responded 500])
        | .ok graphData =>
          let db' := saveGraphToNeo4j embed graphData.nodes graphData.edges db
          (⟨200, .graphBody graphData⟩, db',
            [.llmCall prompt, .persistComplete graphData.nodes graphData.edges,
              .responded 200])
  | _, _ => (⟨400, .errorMsg "Full graph and selected node ID are required"⟩, db, [])

/-- Recognizes an LLM invocation event. -/
def eventIsLlmCall : Event → Bool
  | .llmCall _ => true
  | _ => false

/-- Recognizes a persistence-completion event. -/
def eventIsPersist : Event → Bool
  | .persistComplete _ _ => true
  | _ => false

/-- Recognizes a response event. -/
def eventIsResponse : Event → Bool
  | .responded _ => true
  | _ => false

/-- Number of LLM invocations in a handler trace. -/
def llmCallCount (t : List Event) : Nat := (t.filter eventIsLlmCall).length

/-- Whether a persistence completion occurs strictly before a response in the
trace. -/
def persistPrecedesResponse (t : List Event) : Bool :=
  match t.findIdx? eventIsPersist, t.findIdx? eventIsResponse with
  | some i, some j => decide (i < j)
  | _, _ => false

/-- A one-node working graph, as in the spec's Photosynthesis scenario. -/
def oneNodeGraph : Graph := ⟨[⟨"1", ⟨"Photosynthesis"⟩, ⟨0, 0⟩⟩], []⟩

/-- LLM stub whose call always throws. -/
def stubLlmText : Prompt → Except Unit String := fun _ => .error ()

/-- Parse stub for which no text is valid JSON. -/
def stubJsonParse : String → Option Graph := fun _ => none

/-- Embedding stub whose call always fails. -/
def stubEmbed : String → Except String (List Int) := fun _ => .error "embed down"

/-- Parse stub returning a fixed one-node fragment, standing for a well-formed
LLM reply. -/
def okJsonParse : String → Option Graph := fun _ => some oneNodeGraph

/-- An empty store. -/
def emptyDb : Db := ⟨[], []⟩

/-- C3 counterexample: with a supplied graph whose only node has id "1" and a
supplied but empty `selectedNodeId`, the id matches no node in the graph, yet
the handler answers 400, not 404, because the JavaScript truthiness guard
`!selectedNodeId` treats the empty string like a missing field. -/
theorem expand_empty_id_counterexample :
    (∀ n ∈ oneNodeGraph.nodes, n.id ≠ "") ∧
    (expandHandler stubLlmText stubJsonParse stubEmbed emptyDb
        (some oneNodeGraph) (some "")).1.status = 400 ∧
    (expandHandler stubLlmText stubJsonParse stubEmbed emptyDb
        (some oneNodeGraph) (some "")).1.status ≠ 404 := by
  refine ⟨by decide, rfl, by decide⟩

/-- C3 (amended): whenever the selected id matches no node of the supplied
graph, the handler performs no LLM call; if the id is moreover nonempty it
answers 404, while the empty id is caught by the truthiness guard and answers
400. -/
theorem expand_unknown_id_no_llm (llmText : Prompt → Except Unit String)
    (jsonParse : String → Option Graph) (embed : String → Except String (List Int))
    (db : Db) (g : Graph) (nid : String)
    (h : ∀ n ∈ g.nodes, n.id ≠ nid) :
    llmCallCount
      (expandHandler llmText jsonParse embed db (some g) (some nid)).2.2 = 0 ∧
    (nid ≠ "" →
      (expandHandler llmText jsonParse embed db (some g) (some nid)).1.status = 404) := by
  have hfind : g.nodes.find? (fun n => n.id == nid) = none := by
    apply List.find?_eq_none.mpr
    intro n hn
    simp [h n hn]
  by_cases hnid : nid = ""
  · subst hnid
    exact ⟨rfl, fun hne => absurd rfl hne⟩
  · have hcond : (nid == "") = false := by simp [hnid]
    constructor
    · simp [expandHandler, hcond, hfind, llmCallCount]
    · intro _
      simp [expandHandler, hcond, hfind]

/-- Witness for C3's amended theorem: an unknown nonempty id on the one-node
graph yields 404. -/
theorem expand_unknown_id_no_llm_witness :
    (expandHandler stubLlmText stubJsonParse stubEmbed emptyDb
        (some oneNodeGraph) (some "99")).1.status = 404 :=
  (expand_unknown_id_no_llm stubLlmText stubJsonParse stubEmbed emptyDb
      oneNodeGraph "99" (by decide)).2 (by decide)

/-- C6 counterexample: when the LLM text arrives but is not parseable JSON,
the generate endpoint answers 500 with the message of the thrown error, which
reads "Failed to generate graph from API." — with a trailing period — and so
differs from the message the claim states. -/
theorem generate_error_message_counterexample :
    (generateHandler (fun _ => .ok "not json") stubJsonParse stubEmbed emptyDb
        (some "Photosynthesis")).1 =
      ⟨500, .errorMsg "Failed to generate graph from API."⟩ ∧
    "Failed to generate graph from API." ≠ "Failed to generate graph from API" := by
  refine ⟨rfl, by decide⟩

/-- C6 (amended): an unparseable LLM response makes `generateGraph` fail with
the exact message "Failed to generate graph from API." (trailing period
included), and, for a present nonempty topic, the generate endpoint surfaces
that same message in a 500 response whose body is the error object. -/
theorem generate_parse_failure_500 (llmText : Prompt → Except Unit String)
    (jsonParse : String → Option Graph) (embed : String → Except String (List Int))
    (db : Db) (topic text : String) (htopic : topic ≠ "")
    (hllm : llmText (Prompt.generateTopic topic) = .ok text)
    (hparse : jsonParse text = none) :
    generateGraph llmText jsonParse (Prompt.generateTopic topic) =
      .error "Failed to generate graph from API." ∧
    (generateHandler llmText jsonParse embed db (some topic)).1 =
      ⟨500, .errorMsg "Failed to generate graph from API."⟩ := by
  have hb : (topic == "") = false := by simp [htopic]
  have hge : generateGraph llmText jsonParse (Prompt.generateTopic topic) =
      .error "Failed to generate graph from API." := by
    simp [generateGraph, hllm, hparse]
  refine ⟨hge, ?_⟩
  simp [generateHandler, strPresent, hb, hge]

/-- Witness for C6's amended theorem with concrete stubs. -/
theorem generate_parse_failure_500_witness :
    (generateHandler (fun _ => .ok "oops") stubJsonParse stubEmbed emptyDb
        (some "Gravity")).1 =
      ⟨500, .errorMsg "Failed to generate graph from API."⟩ :=
  (generate_parse_failure_500 (fun _ => .ok "oops") stubJsonParse stubEmbed
      emptyDb "Gravity" "oops" (by decide) rfl rfl).2

/-- C7 counterexample: on a concrete successful generation the
persistence-completion event strictly precedes the response event — the
handler `await`s `saveGraphToNeo4j` before calling `res.json` — so completing
the persistence step IS a precondition of returning the fragment, against the
claimed fire-on-success ordering.  The expansion handler behaves the same
way. -/
theorem persist_before_respond_counterexample :
    persistPrecedesResponse
      (generateHandler (fun _ => .ok "json") okJsonParse stubEmbed emptyDb
          (some "Photosynthesis")).2.2 = true ∧
    (generateHandler (fun _ => .ok "json") okJsonParse stubEmbed emptyDb
        (some "Photosynthesis")).1.status = 200 ∧
    persistPrecedesResponse
      (expandHandler (fun _ => .ok "json") okJsonParse stubEmbed emptyDb
          (some oneNodeGraph) (some "1")).2.2 = true := by
  refine ⟨rfl, rfl, rfl⟩

/-- C7 (amended): on every successful generation or expansion the fragment is
persisted before the response goes out — the save is `await`ed, so its
completion precedes the 200 response in the handler trace.  A persistence
problem still cannot block or fail the response, because `saveGraphToNeo4j`
swallows its own errors: the model is total and the response value does not
depend on the embedding oracle or the database state. -/
theorem persist_awaited_before_response (llmText : Prompt → Except Unit String)
    (jsonParse : String → Option Graph) (embed : String → Except String (List Int))
    (db : Db) (topic : Option String) (fullGraph : Option Graph)
    (selectedNodeId : Option String) :
    ((generateHandler llmText jsonParse embed db topic).1.status = 200 →
      persistPrecedesResponse
        (generateHandler llmText jsonParse embed db topic).2.2 = true) ∧
    ((expandHandler llmText jsonParse embed db fullGraph selectedNodeId).1.status = 200 →
      persistPrecedesResponse
        (expandHandler llmText jsonParse embed db fullGraph selectedNodeId).2.2 = true) := by
  constructor
  · intro h200
    by_cases hp : strPresent topic = true
    · cases hg : generateGraph llmText jsonParse (Prompt.generateTopic (topic.getD "")) with
      | error msg =>
        exfalso
        simp [generateHandler, hp, hg] at h200
      | ok graphData =>
        simp only [generateHandler, hp, hg]
        rfl
    · exfalso
      simp [generateHandler, hp] at h200
  · intro h200
    match fullGraph, selectedNodeId with
    | none, _ => simp [expandHandler] at h200
    | some g, none => simp [expandHandler] at h200
    | some g, some nid =>
      by_cases hnid : (nid == "") = true
      · simp [expandHandler, hnid] at h200
      · have hnid' : (nid == "") = false := by
          rwa [Bool.not_eq_true] at hnid
        cases hfind : g.nodes.find? (fun n => n.id == nid) with
        | none =>
          exfalso
          simp [expandHandler, hnid', hfind] at h200
        | some selectedNode =>
          cases hg : generateGraph llmText jsonParse (Prompt.expandNode g selectedNode) with
          | error msg =>
            exfalso
            simp [expandHandler, hnid', hfind, hg] at h200
          | ok graphData =>
            simp only [expandHandler, hnid', hfind, hg]
            rfl

/-- Witness for C7's amended theorem on a concrete successful generation. -/
theorem persist_awaited_before_response_witness :
    persistPrecedesResponse
      (generateHandler (fun _ => .ok "json") okJsonParse stubEmbed emptyDb
          (some "Water")).2.2 = true :=
  (persist_awaited_before_response (fun _ => .ok "json") okJsonParse stubEmbed
      emptyDb (some "Water") none none).1 rfl

theorem upsertConcept_hasId_self (db : Db) (i l : String) (emb : List Int) :
    ∃ dbn ∈ (upsertConcept db i l emb).nodes, dbn.id = i := by
  by_cases h : db.nodes.any (fun n => n.id == i)
  · obtain ⟨n₀, hn₀, hbeq⟩ := List.any_eq_true.mp h
    refine ⟨{ n₀ with label := l, embedding := emb }, ?_, by simpa using hbeq⟩
    simp only [upsertConcept]
    rw [if_pos h]
    exact List.mem_map.mpr ⟨n₀, hn₀, by rw [if_pos hbeq]⟩
  · refine ⟨⟨i, l, emb⟩, ?_, rfl⟩
    simp only [upsertConcept]
    rw [if_neg h]
    exact List.mem_append_right _ (List.mem_singleton.mpr rfl)

theorem upsertConcept_hasId_mono (db : Db) (i l : String) (emb : List Int)
    (s : String) (hs : ∃ dbn ∈ db.nodes, dbn.id = s) :
    ∃ dbn ∈ (upsertConcept db i l emb).nodes, dbn.id = s := by
  obtain ⟨dbn, hmem, hid⟩ := hs
  by_cases h : db.nodes.any (fun n => n.id == i)
  · by_cases hb : (dbn.id == i) = true
    · refine ⟨{ dbn with label := l, embedding := emb }, ?_, hid⟩
      simp only [upsertConcept]
      rw [if_pos h]
      exact List.mem_map.mpr ⟨dbn, hmem, by rw [if_pos hb]⟩
    · refine ⟨dbn, ?_, hid⟩
      simp only [upsertConcept]
      rw [if_pos h]
      exact List.mem_map.mpr ⟨dbn, hmem, by rw [if_neg hb]⟩
  · refine ⟨dbn, ?_, hid⟩
    simp only [upsertConcept]
    rw [if_neg h]
    exact List.mem_append_left _ hmem

theorem mergeRelation_nodes (db : Db) (a b c d : String) :
    (mergeRelation db a b c d).nodes = db.nodes := by
  unfold mergeRelation
  split
  · split
    · rfl
    · rfl
  · rfl

theorem saveEdgesPhase_nodes (edges : List Edge) (db : Db) :
    (saveEdgesPhase edges db).nodes = db.nodes := by
  induction edges generalizing db with
  | nil => rfl
  | cons e es ih =>
    rw [show saveEdgesPhase (e :: es) db =
        saveEdgesPhase es (mergeRelation db e.source e.target e.id e.data.label)
      from rfl, ih, mergeRelation_nodes]

theorem saveNodesPhase_hasId_mono (embed : String → Except String (List Int))
    (nodes : List Node) (db : Db) (s : String)
    (hs : ∃ dbn ∈ db.nodes, dbn.id = s) :
    ∃ dbn ∈ (saveNodesPhase embed nodes db).nodes, dbn.id = s := by
  induction nodes generalizing db with
  | nil => exact hs
  | cons a as ih =>
    show ∃ dbn ∈ (saveNodesPhase embed as
        (upsertConcept db a.id a.data.label (getEmbedding embed a.data.label))).nodes,
      dbn.id = s
    exact ih _ (upsertConcept_hasId_mono db a.id a.data.label _ s hs)

theorem saveNodesPhase_hasId_of_mem (embed : String → Except String (List Int)) :
    ∀ (nodes : List Node) (db : Db) (n : Node), n ∈ nodes →
      ∃ dbn ∈ (saveNodesPhase embed nodes db).nodes, dbn.id = n.id := by
  intro nodes
  induction nodes with
  | nil =>
    intro db n hn
    cases hn
  | cons a as ih =>
    intro db n hn
    rcases List.mem_cons.mp hn with h | h
    · subst h
      show ∃ dbn ∈ (saveNodesPhase embed as
          (upsertConcept db n.id n.data.label (getEmbedding embed n.data.label))).nodes,
        dbn.id = n.id
      exact saveNodesPhase_hasId_mono embed as _ n.id
        (upsertConcept_hasId_self db n.id n.data.label _)
    · exact ih _ n h

/-- C8: an embedding failure degrades to the empty vector and never aborts the
save.  First, `getEmbedding` turns any failing oracle into `[]`.  Second, a
save whose embedding oracle always fails equals a save whose oracle returns
the empty vector, so the remaining node and edge upserts run exactly as they
would with embeddings present.  Third, every node handed to the save ends up
persisted — its id is in the store — no matter what the embedding oracle
does. -/
theorem embedding_failure_degrades :
    (∀ (embed : String → Except String (List Int)) (text msg : String),
      embed text = .error msg → getEmbedding embed text = []) ∧
    (∀ (msg : String) (nodes : List Node) (edges : List Edge) (db : Db),
      saveGraphToNeo4j (fun _ => .error msg) nodes edges db =
        saveGraphToNeo4j (fun _ => .ok []) nodes edges db) ∧
    (∀ (embed : String → Except String (List Int)) (nodes : List Node)
        (edges : List Edge) (db : Db) (n : Node), n ∈ nodes →
      ∃ dbn ∈ (saveGraphToNeo4j embed nodes edges db).nodes, dbn.id = n.id) := by
  refine ⟨?_, ?_, ?_⟩
  · intro embed text msg h
    simp [getEmbedding, h]
  · intro msg nodes edges db
    rfl
  · intro embed nodes edges db n hn
    obtain ⟨dbn, hmem, hid⟩ := saveNodesPhase_hasId_of_mem embed nodes db n hn
    refine ⟨dbn, ?_, hid⟩
    show dbn ∈ (saveEdgesPhase edges (saveNodesPhase embed nodes db)).nodes
    rw [saveEdgesPhase_nodes]
    exact hmem

/-- Witness for C8: with the always-failing embedding stub, the embedding of
the Photosynthesis label degrades to `[]`, and the node is persisted with that
empty embedding. -/
theorem embedding_failure_degrades_witness :
    getEmbedding stubEmbed "Photosynthesis" = [] ∧
    (saveGraphToNeo4j stubEmbed oneNodeGraph.nodes [] emptyDb).nodes =
      [⟨"1", "Photosynthesis", []⟩] := by
  constructor
  · exact embedding_failure_degrades.1 stubEmbed "Photosynthesis" "embed down" rfl
  · rfl

/-- One row of the Cypher query in `/api/neo4j/all`: the matched concept `n`
and, when the optional match succeeded, an outgoing relationship paired with
its end concept `m`. -/
structure QueryRecord where
  n : DbNode
  rm : Option (DbRel × DbNode)
deriving DecidableEq, Repr

/-- The (relationship, end node) pairs matched by
`OPTIONAL MATCH (n)-[r]->(m:Concept)` for a given start concept. -/
def outgoingPairs (db : Db) (n : DbNode) : List (DbRel × DbNode) :=
  db.rels.flatMap (fun r =>
    if r.startId == n.id then
      (db.nodes.filter (fun m => m.id == r.endId)).map (fun m => (r, m))
    else [])

/-- Row semantics of `MATCH (n:Concept) OPTIONAL MATCH (n)-[r]->(m:Concept)
RETURN n, r, m`: one row with a null relationship for a concept with no
outgoing relationship to a concept, and one row per matched pair otherwise. -/
def allConceptRecords (db : Db) : List QueryRecord :=
  db.nodes.flatMap (fun n =>
    match outgoingPairs db n with
    | [] => [⟨n, none⟩]
    | ps => ps.map (fun p => ⟨n, some p⟩))

/-- JavaScript `a || b` on an optional string property: an absent property and
the empty string are both falsy and select the fallback. -/
def jsOrElse (prop : Option String) (fallback : String) : String :=
  match prop with
  | none => fallback
  | some s => if s == "" then fallback else s

/-- Assignment `obj[k] = v` on a JavaScript object modelled as an association
list: an existing key keeps its position and gets the new value, a new key is
appended. -/
def assocUpsert {α : Type} (l : List (String × α)) (k : String) (v : α) :
    List (String × α) :=
  if l.any (fun p => p.1 == k) then
    l.map (fun p => if p.1 == k then (k, v) else p)
  else l ++ [(k, v)]

/-- One iteration of the `result.records.forEach` body in `/api/neo4j/all`:
always store the start node under its id; when a relationship row is present,
store an edge under the relationship id whose source and target are the
relationship's own `source`/`target` properties if truthy, else the matched
endpoint ids. -/
def loadAllStep (rand : String → Pos)
    (acc : List (String × Node) × List (String × Edge)) (record : QueryRecord) :
    List (String × Node) × List (String × Edge) :=
  let nodes' := assocUpsert acc.1 record.n.id
    ⟨record.n.id, ⟨record.n.label⟩, rand record.n.id⟩
  match record.rm with
  | none => (nodes', acc.2)
  | some (r, m) =>
    (nodes', assocUpsert acc.2 r.id
      ⟨r.id, jsOrElse r.sourceProp record.n.id, jsOrElse r.targetProp m.id,
        ⟨r.label⟩⟩)

/-- Model of `GET /api/neo4j/all` (server.js lines 196-237): fold the query
rows into id-keyed node and edge objects, then answer with their values.  The
`Math.random` positions are supplied by the `rand` oracle. -/
def loadAllHandler (rand : String → Pos) (db : Db) : Graph :=
  let acc := (allConceptRecords db).foldl (loadAllStep rand) ([], [])
  ⟨acc.1.map (fun p => p.2), acc.2.map (fun p => p.2)⟩

/-- A key occurs in an association list. -/
def keyIn {α : Type} (l : List (String × α)) (k : String) : Prop :=
  ∃ p ∈ l, p.1 = k

theorem assocUpsert_keyIn_self {α : Type} (l : List (String × α)) (k : String)
    (v : α) : keyIn (assocUpsert l k v) k := by
  unfold assocUpsert
  split
  · next h =>
    obtain ⟨p₀, hp₀, hbeq⟩ := List.any_eq_true.mp h
    exact ⟨(k, v), List.mem_map.mpr ⟨p₀, hp₀, by rw [if_pos hbeq]⟩, rfl⟩
  · exact ⟨(k, v), List.mem_append_right _ (List.mem_singleton.mpr rfl), rfl⟩

theorem assocUpsert_keyIn_mono {α : Type} (l : List (String × α)) (k s : String)
    (v : α) (hs : keyIn l s) : keyIn (assocUpsert l k v) s := by
  obtain ⟨p, hp, hps⟩ := hs
  unfold assocUpsert
  split
  · by_cases hb : (p.1 == k) = true
    · have hk : p.1 = k := by simpa using hb
      exact ⟨(k, v), List.mem_map.mpr ⟨p, hp, by rw [if_pos hb]⟩, hk ▸ hps⟩
    · exact ⟨p, List.mem_map.mpr ⟨p, hp, by rw [if_neg hb]⟩, hps⟩
  · exact ⟨p, List.mem_append_left _ hp, hps⟩

theorem assocUpsert_forall {α : Type} (P : String × α → Prop)
    (l : List (String × α)) (k : String) (v : α)
    (hl : ∀ p ∈ l, P p) (hv : P (k, v)) : ∀ p ∈ assocUpsert l k v, P p := by
  intro p hp
  unfold assocUpsert at hp
  split at hp
  · obtain ⟨q, hq, hqe⟩ := List.mem_map.mp hp
    by_cases hb : (q.1 == k) = true
    · rw [if_pos hb] at hqe
      exact hqe ▸ hv
    · rw [if_neg hb] at hqe
      exact hqe ▸ hl q hq
  · rcases List.mem_append.mp hp with h | h
    · exact hl p h
    · rw [List.mem_singleton.mp h]
      exact hv

theorem loadAllStep_fst (rand : String → Pos)
    (acc : List (String × Node) × List (String × Edge)) (record : QueryRecord) :
    (loadAllStep rand acc record).1 =
      assocUpsert acc.1 record.n.id
        ⟨record.n.id, ⟨record.n.label⟩, rand record.n.id⟩ := by
  unfold loadAllStep
  cases hr : record.rm with
  | none => rfl
  | some p => rfl

theorem loadAll_fold_nodes_keyIn_mono (rand : String → Pos)
    (records : List QueryRecord)
    (acc : List (String × Node) × List (String × Edge)) (s : String)
    (hs : keyIn acc.1 s) :
    keyIn (records.foldl (loadAllStep rand) acc).1 s := by
  induction records generalizing acc with
  | nil => exact hs
  | cons a as ih =>
    show keyIn (as.foldl (loadAllStep rand) (loadAllStep rand acc a)).1 s
    apply ih
    rw [loadAllStep_fst]
    exact assocUpsert_keyIn_mono _ _ _ _ hs

theorem loadAll_fold_keyIn_of_mem (rand : String → Pos) :
    ∀ (records : List QueryRecord)
      (acc : List (String × Node) × List (String × Edge))
      (rec : QueryRecord), rec ∈ records →
      keyIn (records.foldl (loadAllStep rand) acc).1 rec.n.id := by
  intro records
  induction records with
  | nil =>
    intro acc rec h
    cases h
  | cons a as ih =>
    intro acc rec h
    rcases List.mem_cons.mp h with h | h
    · subst h
      show keyIn (as.foldl (loadAllStep rand) (loadAllStep rand acc rec)).1 rec.n.id
      apply loadAll_fold_nodes_keyIn_mono
      rw [loadAllStep_fst]
      exact assocUpsert_keyIn_self _ _ _
    · exact ih _ rec h

theorem loadAll_fold_nodes_inv (rand : String → Pos)
    (records : List QueryRecord)
    (acc : List (String × Node) × List (String × Edge))
    (hacc : ∀ p ∈ acc.1, p.2.id = p.1) :
    ∀ p ∈ (records.foldl (loadAllStep rand) acc).1, p.2.id = p.1 := by
  induction records generalizing acc with
  | nil => exact hacc
  | cons a as ih =>
    show ∀ p ∈ (as.foldl (loadAllStep rand) (loadAllStep rand acc a)).1, p.2.id = p.1
    apply ih
    rw [loadAllStep_fst]
    exact assocUpsert_forall _ _ _ _ hacc rfl

/-- An id is carried by some stored concept. -/
def idInDb (db : Db) (s : String) : Prop := ∃ dbn ∈ db.nodes, dbn.id = s

theorem loadAll_fold_edges_inv (rand : String → Pos) (db : Db)
    (hprops : ∀ r ∈ db.rels, r.sourceProp = none ∧ r.targetProp = none) :
    ∀ (records : List QueryRecord),
      (∀ rec ∈ records, rec.n ∈ db.nodes ∧
        ∀ r m, rec.rm = some (r, m) → r ∈ db.rels ∧ m ∈ db.nodes) →
      ∀ (acc : List (String × Node) × List (String × Edge)),
        (∀ p ∈ acc.2, idInDb db p.2.source ∧ idInDb db p.2.target) →
      ∀ p ∈ (records.foldl (loadAllStep rand) acc).2,
        idInDb db p.2.source ∧ idInDb db p.2.target := by
  intro records
  induction records with
  | nil =>
    intro _ acc hacc
    exact hacc
  | cons a as ih =>
    intro hsound acc hacc
    show ∀ p ∈ (as.foldl (loadAllStep rand) (loadAllStep rand acc a)).2, _
    apply ih (fun rec h => hsound rec (List.mem_cons_of_mem a h))
    cases hr : a.rm with
    | none =>
      have hstep : (loadAllStep rand acc a).2 = acc.2 := by
        unfold loadAllStep
        rw [hr]
      rw [hstep]
      exact hacc
    | some p =>
      obtain ⟨r, m⟩ := p
      have hstep : (loadAllStep rand acc a).2 =
          assocUpsert acc.2 r.id
            ⟨r.id, jsOrElse r.sourceProp a.n.id, jsOrElse r.targetProp m.id,
              ⟨r.label⟩⟩ := by
        unfold loadAllStep
        rw [hr]
      rw [hstep]
      apply assocUpsert_forall _ _ _ _ hacc
      obtain ⟨hn, hrm⟩ := hsound a (List.mem_cons_self a as)
      obtain ⟨hr_mem, hm_mem⟩ := hrm r m hr
      obtain ⟨hsp, htp⟩ := hprops r hr_mem
      constructor
      · rw [hsp]
        exact ⟨a.n, hn, rfl⟩
      · rw [htp]
        exact ⟨m, hm_mem, rfl⟩

theorem allConceptRecords_sound (db : Db) :
    ∀ rec ∈ allConceptRecords db, rec.n ∈ db.nodes ∧
      ∀ r m, rec.rm = some (r, m) → r ∈ db.rels ∧ m ∈ db.nodes := by
  intro rec hrec
  obtain ⟨n, hn, hblock⟩ := List.mem_flatMap.mp hrec
  cases hps : outgoingPairs db n with
  | nil =>
    rw [hps] at hblock
    have hb2 : rec ∈ [(⟨n, none⟩ : QueryRecord)] := hblock
    rw [List.mem_singleton.mp hb2]
    exact ⟨hn, fun r m h => by cases h⟩
  | cons p ps =>
    rw [hps] at hblock
    have hb2 : rec ∈ (p :: ps).map (fun q => (⟨n, some q⟩ : QueryRecord)) := hblock
    obtain ⟨q, hq, hqe⟩ := List.mem_map.mp hb2
    rw [← hps] at hq
    subst hqe
    refine ⟨hn, ?_⟩
    intro r m h
    have hq' : q = (r, m) := Option.some.inj h
    subst hq'
    obtain ⟨r₀, hr₀, hin⟩ := List.mem_flatMap.mp hq
    by_cases hb : (r₀.startId == n.id) = true
    · rw [if_pos hb] at hin
      obtain ⟨m₀, hm₀, hpe⟩ := List.mem_map.mp hin
      have h1 : r₀ = r := congrArg Prod.fst hpe
      have h2 : m₀ = m := congrArg Prod.snd hpe
      subst h1
      subst h2
      exact ⟨hr₀, (List.mem_filter.mp hm₀).1⟩
    · rw [if_neg hb] at hin
      cases hin

theorem allConceptRecords_complete (db : Db) :
    ∀ n ∈ db.nodes, ∃ rec ∈ allConceptRecords db, rec.n = n := by
  intro n hn
  cases hps : outgoingPairs db n with
  | nil =>
    refine ⟨⟨n, none⟩, ?_, rfl⟩
    apply List.mem_flatMap.mpr
    refine ⟨n, hn, ?_⟩
    rw [hps]
    exact List.mem_singleton.mpr rfl
  | cons p ps =>
    refine ⟨⟨n, some p⟩, ?_, rfl⟩
    apply List.mem_flatMap.mpr
    refine ⟨n, hn, ?_⟩
    rw [hps]
    exact List.mem_map.mpr ⟨p, List.mem_cons_self p ps, rfl⟩

theorem upsertConcept_rels (db : Db) (i l : String) (emb : List Int) :
    (upsertConcept db i l emb).rels = db.rels := by
  unfold upsertConcept
  split
  · rfl
  · rfl

theorem saveNodesPhase_rels (embed : String → Except String (List Int))
    (nodes : List Node) (db : Db) :
    (saveNodesPhase embed nodes db).rels = db.rels := by
  induction nodes generalizing db with
  | nil => rfl
  | cons a as ih =>
    rw [show saveNodesPhase embed (a :: as) db = saveNodesPhase embed as
        (upsertConcept db a.id a.data.label (getEmbedding embed a.data.label))
      from rfl, ih, upsertConcept_rels]

theorem mergeRelation_noProps (db : Db) (a b c d : String)
    (h : ∀ r ∈ db.rels, r.sourceProp = none ∧ r.targetProp = none) :
    ∀ r ∈ (mergeRelation db a b c d).rels,
      r.sourceProp = none ∧ r.targetProp = none := by
  intro r hr
  unfold mergeRelation at hr
  split at hr
  · split at hr
    · exact h r hr
    · rcases List.mem_append.mp hr with h' | h'
      · exact h r h'
      · rw [List.mem_singleton.mp h']
        exact ⟨rfl, rfl⟩
  · exact h r hr

theorem saveEdgesPhase_noProps (edges : List Edge) (db : Db)
    (h : ∀ r ∈ db.rels, r.sourceProp = none ∧ r.targetProp = none) :
    ∀ r ∈ (saveEdgesPhase edges db).rels,
      r.sourceProp = none ∧ r.targetProp = none := by
  induction edges generalizing db with
  | nil => exact h
  | cons e es ih =>
    show ∀ r ∈ (saveEdgesPhase es
        (mergeRelation db e.source e.target e.id e.data.label)).rels, _
    exact ih _ (mergeRelation_noProps db _ _ _ _ h)

/-- C9: over any store whose relationships carry no `source`/`target`
properties — the final conjunct shows the save path only ever writes such
relationships — every edge in the load-all response takes its endpoints from
the matched endpoint concepts, both of which are emitted among the response's
nodes, so the load path never produces a dangling edge. -/
theorem loadAll_no_dangling (rand : String → Pos) (db : Db)
    (hprops : ∀ r ∈ db.rels, r.sourceProp = none ∧ r.targetProp = none) :
    (∀ e ∈ (loadAllHandler rand db).edges,
      (∃ n ∈ (loadAllHandler rand db).nodes, n.id = e.source) ∧
      (∃ n ∈ (loadAllHandler rand db).nodes, n.id = e.target)) ∧
    (∀ (embed : String → Except String (List Int)) (nodes : List Node)
        (edges : List Edge) (db₀ : Db),
      (∀ r ∈ db₀.rels, r.sourceProp = none ∧ r.targetProp = none) →
      ∀ r ∈ (saveGraphToNeo4j embed nodes edges db₀).rels,
        r.sourceProp = none ∧ r.targetProp = none) := by
  constructor
  · have hnode : ∀ s, idInDb db s →
        ∃ n ∈ (loadAllHandler rand db).nodes, n.id = s := by
      rintro s ⟨dbn, hdbn, hid⟩
      obtain ⟨rec, hrec, hrn⟩ := allConceptRecords_complete db dbn hdbn
      have hkey : keyIn
          ((allConceptRecords db).foldl (loadAllStep rand) ([], [])).1 rec.n.id :=
        loadAll_fold_keyIn_of_mem rand (allConceptRecords db) ([], []) rec hrec
      rw [hrn, hid] at hkey
      obtain ⟨q, hq, hq1⟩ := hkey
      have hinv := loadAll_fold_nodes_inv rand (allConceptRecords db) ([], [])
        (by intro p hp; cases hp) q hq
      exact ⟨q.2, List.mem_map.mpr ⟨q, hq, rfl⟩, hinv.trans hq1⟩
    intro e he
    obtain ⟨p, hp, hpe⟩ := List.mem_map.mp he
    have hinv := loadAll_fold_edges_inv rand db hprops (allConceptRecords db)
      (allConceptRecords_sound db) ([], []) (by intro p hp; cases hp) p hp
    rw [← hpe]
    exact ⟨hnode _ hinv.1, hnode _ hinv.2⟩
  · intro embed nodes edges db₀ h r hr
    refine saveEdgesPhase_noProps edges (saveNodesPhase embed nodes db₀) ?_ r hr
    rw [saveNodesPhase_rels]
    exact h

/-- A two-concept store with one relationship, written the way
`saveGraphToNeo4j` writes it (no `source`/`target` properties). -/
def sampleDb : Db :=
  ⟨[⟨"1", "Photosynthesis", []⟩, ⟨"2", "Light", []⟩],
    [⟨"1", "2", "e1", "uses", none, none⟩]⟩

/-- Position oracle standing in for `Math.random`. -/
def zeroRand : String → Pos := fun _ => ⟨0, 0⟩

/-- Witness for C9: on the sample store, the target id of the loaded edge is
present among the loaded nodes. -/
theorem loadAll_no_dangling_witness :
    ((loadAllHandler zeroRand sampleDb).nodes.map (fun n => n.id)).contains "2"
      = true := by
  obtain ⟨n, hn, hid⟩ := ((loadAll_no_dangling zeroRand sampleDb (by decide)).1
      ⟨"e1", "1", "2", ⟨"uses"⟩⟩ (by decide)).2
  rw [contains_map_id_iff]
  exact ⟨n, hn, hid⟩

/-- Modelled from the spec: the layout utility `getLayoutedElements` of
`src/utils/layout` is imported by the App and by `GraphCanvas3D` but its
source file is missing from the sources.  Per spec §4.2 it returns the same
nodes, each with an assigned position (never dropping a node, falling back to
a default placement when the algorithm cannot place one), the edges
unchanged, deterministically for fixed nodes/edges/direction, with the
direction hint choosing the orientation.  The concrete coordinates stand in
for the external layered-layout computation and carry no meaning. -/
def getLayoutedElements (nodes : List Node) (edges : List Edge)
    (direction : String) : List Node × List Edge :=
  if direction == "LR" then
    (nodes.map (fun n =>
      { n with position := ⟨Int.ofNat n.id.length * 150, 0⟩ }), edges)
  else
    (nodes.map (fun n =>
      { n with position := ⟨0, Int.ofNat n.id.length * 150⟩ }), edges)

theorem getLayoutedElements_ids (nodes : List Node) (edges : List Edge)
    (direction : String) :
    ((getLayoutedElements nodes edges direction).1).map (fun n => n.id) =
      nodes.map (fun n => n.id) := by
  unfold getLayoutedElements
  split
  · rw [List.map_map]
    rfl
  · rw [List.map_map]
    rfl

/-- The pure scene content built by `GraphCanvas3D`: the `userData.nodeId` of
each created mesh, and the endpoint pair of each drawn line. -/
structure Scene where
  meshNodeIds : List String
  lines : List (String × String)
deriving DecidableEq, Repr

/-- The mesh and line construction of `GraphCanvas3D` (lines 53-114): lay the
nodes out left-to-right, create one mesh per layouted node carrying the node
id, then for each edge look up both endpoint meshes by node id and draw a line
only when both lookups succeed; an edge whose endpoint mesh is missing is
silently skipped. -/
def renderGraph3D (nodes : List Node) (edges : List Edge) : Scene :=
  let layoutedNodes := (getLayoutedElements nodes edges "LR").1
  let nodeMeshIds := layoutedNodes.map (fun n => n.id)
  { meshNodeIds := nodeMeshIds
            , lines := (edges.filter (fun e =>
      nodeMeshIds.contains e.source && nodeMeshIds.contains e.target)).map
      (fun e => (e.source, e.target)) }

/-- C10: the 3D renderer creates meshes for exactly the input node ids, and a
line is drawn for an edge exactly when nodes with both its endpoint ids exist;
an edge referencing a missing node contributes no line, and every drawn line
has both endpoints among the input nodes, so rendering a graph with dangling
edges never dereferences a missing endpoint. -/
theorem render3D_skips_dangling (nodes : List Node) (edges : List Edge) :
    (renderGraph3D nodes edges).meshNodeIds = nodes.map (fun n => n.id) ∧
    (∀ e ∈ edges,
      ((e.source, e.target) ∈ (renderGraph3D nodes edges).lines ↔
        (∃ n ∈ nodes, n.id = e.source) ∧ (∃ n ∈ nodes, n.id = e.target))) ∧
    (∀ l ∈ (renderGraph3D nodes edges).lines,
      (∃ n ∈ nodes, n.id = l.1) ∧ (∃ n ∈ nodes, n.id = l.2)) := by
  have hids : ((getLayoutedElements nodes edges "LR").1).map (fun n => n.id) =
      nodes.map (fun n => n.id) := getLayoutedElements_ids nodes edges "LR"
  have hmesh : (renderGraph3D nodes edges).meshNodeIds =
      nodes.map (fun n => n.id) := hids
  have hlines : (renderGraph3D nodes edges).lines =
      (edges.filter (fun e =>
        (nodes.map (fun n => n.id)).contains e.source &&
          (nodes.map (fun n => n.id)).contains e.target)).map
        (fun e => (e.source, e.target)) := by
    show ((edges.filter (fun e =>
        ((getLayoutedElements nodes edges "LR").1.map (fun n => n.id)).contains e.source &&
          ((getLayoutedElements nodes edges "LR").1.map (fun n => n.id)).contains e.target)).map
        (fun e => (e.source, e.target))) = _
    rw [hids]
  refine ⟨hmesh, ?_, ?_⟩
  · intro e he
    rw [hlines]
    constructor
    · intro hmem
      obtain ⟨e', he', hpe⟩ := List.mem_map.mp hmem
      have hcond := (List.mem_filter.mp he').2
      rw [Bool.and_eq_true] at hcond
      have h1 : e'.source = e.source := congrArg Prod.fst hpe
      have h2 : e'.target = e.target := congrArg Prod.snd hpe
      constructor
      · exact (contains_map_id_iff nodes e.source).mp (h1 ▸ hcond.1)
      · exact (contains_map_id_iff nodes e.target).mp (h2 ▸ hcond.2)
    · rintro ⟨hs, ht⟩
      refine List.mem_map.mpr ⟨e, List.mem_filter.mpr ⟨he, ?_⟩, rfl⟩
      rw [Bool.and_eq_true]
      exact ⟨(contains_map_id_iff nodes e.source).mpr hs,
        (contains_map_id_iff nodes e.target).mpr ht⟩
  · intro l hl
    rw [hlines] at hl
    obtain ⟨e', he', hpe⟩ := List.mem_map.mp hl
    have hcond := (List.mem_filter.mp he').2
    rw [Bool.and_eq_true] at hcond
    have h1 : e'.source = l.1 := congrArg Prod.fst hpe
    have h2 : e'.target = l.2 := congrArg Prod.snd hpe
    exact ⟨(contains_map_id_iff nodes l.1).mp (h1 ▸ hcond.1),
      (contains_map_id_iff nodes l.2).mp (h2 ▸ hcond.2)⟩

/-- Witness for C10: an edge whose endpoints both resolve on the one-node
graph gets its line drawn. -/
theorem render3D_skips_dangling_witness :
    ("1", "1") ∈ (renderGraph3D oneNodeGraph.nodes
        [⟨"e9", "1", "1", ⟨"self"⟩⟩]).lines :=
  ((render3D_skips_dangling oneNodeGraph.nodes
        [⟨"e9", "1", "1", ⟨"self"⟩⟩]).2.1
      ⟨"e9", "1", "1", ⟨"self"⟩⟩ (by decide)).mpr
    ⟨⟨⟨"1", ⟨"Photosynthesis"⟩, ⟨0, 0⟩⟩, by decide, rfl⟩,
      ⟨⟨"1", ⟨"Photosynthesis"⟩, ⟨0, 0⟩⟩, by decide, rfl⟩⟩

/-- Witness for C1: a fresh node of the fragment is admitted into the merged
graph because no existing node carries its id. -/
theorem merge_first_write_wins_witness :
    (⟨"2", ⟨"Light"⟩, ⟨1, 1⟩⟩ : Node) ∈
      (mergeGraph oneNodeGraph ⟨[⟨"2", ⟨"Light"⟩, ⟨1, 1⟩⟩], []⟩).nodes :=
  ((merge_first_write_wins oneNodeGraph ⟨[⟨"2", ⟨"Light"⟩, ⟨1, 1⟩⟩], []⟩).1
      ⟨"2", ⟨"Light"⟩, ⟨1, 1⟩⟩).mpr
    (Or.inr ⟨by decide, by decide⟩)

/-- Witness for C2: after deleting node "2", the untouched node "1" is still
in the working graph. -/
theorem deleteNode_exact_witness :
    (⟨"1", ⟨"Photosynthesis"⟩, ⟨0, 0⟩⟩ : Node) ∈
      (handleDeleteNode "2"
        ⟨[⟨"1", ⟨"Photosynthesis"⟩, ⟨0, 0⟩⟩, ⟨"2", ⟨"Light"⟩, ⟨1, 1⟩⟩],
          [⟨"e1", "1", "2", ⟨"uses"⟩⟩]⟩).nodes :=
  ((deleteNode_exact "2"
      ⟨[⟨"1", ⟨"Photosynthesis"⟩, ⟨0, 0⟩⟩, ⟨"2", ⟨"Light"⟩, ⟨1, 1⟩⟩],
        [⟨"e1", "1", "2", ⟨"uses"⟩⟩]⟩).1
    ⟨"1", ⟨"Photosynthesis"⟩, ⟨0, 0⟩⟩).mpr ⟨by decide, by decide⟩

/-- Witness for C5: the pre-existing node survives a concrete merge. -/
theorem merge_monotone_witness :
    (⟨"1", ⟨"Photosynthesis"⟩, ⟨0, 0⟩⟩ : Node) ∈
      (mergeGraph oneNodeGraph ⟨[⟨"2", ⟨"Light"⟩, ⟨1, 1⟩⟩], []⟩).nodes :=
  (merge_monotone oneNodeGraph ⟨[⟨"2", ⟨"Light"⟩, ⟨1, 1⟩⟩], []⟩).1
    ⟨"1", ⟨"Photosynthesis"⟩, ⟨0, 0⟩⟩ (by decide)

end VizLearn
